import Mathlib

/-!
Verification development for the WebP game-tile renamer application.

The TypeScript source (src/App.tsx and friends) is shallowly embedded here:
JavaScript strings become `List Char`, optional values become `Option`,
and the reactive per-item pipeline becomes an explicit step relation on an
application-state record.  Every definition mirrors a concrete piece of the
source; the theorems at the end settle the frozen claims about the spec.
-/

set_option maxHeartbeats 1000000

/-- Characters kept by the regex class a-z0-9 with the i flag, as used in
the `normalizeText` replace that removes everything else. -/
def isAlnumAscii (c : Char) : Bool :=
  (Char.ofNat 97 ≤ c && c ≤ Char.ofNat 122) ||
  (Char.ofNat 65 ≤ c && c ≤ Char.ofNat 90) ||
  (Char.ofNat 48 ≤ c && c ≤ Char.ofNat 57)

/-- `normalizeText` from src/App.tsx: lower-case, then drop every character
that is not an ASCII letter or digit.  A missing (undefined) input is the
empty string, which maps to the empty string. -/
def normalizeText (text : List Char) : List Char :=
  (text.map Char.toLower).filter isAlnumAscii

/-- JavaScript `String.prototype.includes`: substring containment. -/
def strIncludes (haystack needle : List Char) : Bool :=
  haystack.tails.any (fun t => needle.isPrefixOf t)

/-- Whitespace as matched by the JS regex class backslash-s and trimmed by
`String.prototype.trim` (restricted to the code points that occur here). -/
def isJsSpace (c : Char) : Bool :=
  c = ' ' || c = '\t' || c = '\n' || c = '\r' ||
  c = Char.ofNat 11 || c = Char.ofNat 12 || c = Char.ofNat 160

/-- JavaScript `String.prototype.trim`. -/
def jsTrim (s : List Char) : List Char :=
  ((s.dropWhile isJsSpace).reverse.dropWhile isJsSpace).reverse

/-- The JS regex class backslash-w: ASCII letters, digits and underscore. -/
def isWordChar (c : Char) : Bool :=
  isAlnumAscii c || c = '_'

/-- Characters trimmed from the ends of the sanitized name (underscore,
dot, dash). -/
def isTrimSep (c : Char) : Bool :=
  c = '_' || c = '.' || c = '-'

/-- Worker for `collapseWs`; the flag records whether the previous
character was whitespace (so the run already emitted its underscore). -/
def collapseWsAux : Bool → List Char → List Char
  | _, [] => []
  | inRun, c :: rest =>
    if isJsSpace c then
      if inRun then collapseWsAux true rest
      else '_' :: collapseWsAux true rest
    else c :: collapseWsAux false rest

/-- The whitespace-collapsing replace of `sanitizeFilename`: each maximal
run of whitespace becomes one underscore. -/
def collapseWs (s : List Char) : List Char :=
  collapseWsAux false s

/-- `sanitizeFilename` from src/App.tsx: strip a trailing .webp
(case-insensitively), replace every character outside word, dot and dash
with an underscore, collapse whitespace runs, truncate to maxLength, trim
trailing and then leading underscore, dot, dash, and fall back to
fallbackName when empty. -/
def sanitizeFilename (name fallbackName : List Char) (maxLength : Nat) : List Char :=
  let s1 := if (".webp".toList).isSuffixOf (name.map Char.toLower)
            then name.take (name.length - 5) else name
  let s2 := s1.map (fun c => if isWordChar c || c = '.' || c = '-' then c else '_')
  let s3 := collapseWs s2
  let s4 := if maxLength < s3.length then s3.take maxLength else s3
  let s5 := ((s4.reverse.dropWhile isTrimSep).reverse).dropWhile isTrimSep
  if s5.isEmpty then fallbackName else s5

/-- Spec step: strip a trailing image-format suffix (.webp) if present,
case-insensitively. -/
def stripFormatSuffix (name : List Char) : List Char :=
  if (".webp".toList).isSuffixOf (name.map Char.toLower)
  then name.take (name.length - 5) else name

/-- Spec step: replace every character outside A-Za-z0-9, underscore, dot,
dash with an underscore. -/
def replaceDisallowed (s : List Char) : List Char :=
  s.map (fun c => if isWordChar c || c = '.' || c = '-' then c else '_')

/-- Spec step: trim leading and trailing underscore, dot, dash (trailing
removed first, as in the source). -/
def trimEdgeSeps (s : List Char) : List Char :=
  (List.rdropWhile isTrimSep s).dropWhile isTrimSep

/-- The sanitizer pipeline exactly as the spec words it: strip suffix,
replace disallowed characters, collapse whitespace, truncate, trim edges.
Spec-side restatement, to be compared with `sanitizeFilename`. -/
def sanitizeSteps (name : List Char) (maxLength : Nat) : List Char :=
  trimEdgeSeps (List.take maxLength (collapseWs (replaceDisallowed (stripFormatSuffix name))))

/-- One parsed row of the mapping table (src types.ts
`FilenameMappingEntry`). -/
structure FilenameMappingEntry where
  gameName : List Char
  imsGameCode : List Char
  provider : Option (List Char)
deriving DecidableEq, Repr

/-- Everything before the last dot of the original filename, or the whole
name when that would be empty (no dot, or a leading dot only) — the
substring-lastIndexOf-or expression in `findMatchingGame`. -/
def filenameStem (name : List Char) : List Char :=
  let stem := ((name.reverse.dropWhile (fun c => c ≠ '.')).drop 1).reverse
  if stem.isEmpty then name else stem

/-- The replace with pattern caret, one-or-more digits, the letter x,
one-or-more digits, a dash (e.g. 540x540 followed by a dash): strips that
leading dimension marker from the filename. -/
def stripDims (s : List Char) : List Char :=
  match s.dropWhile Char.isDigit with
  | [] => s
  | c :: r2 =>
    if (s.takeWhile Char.isDigit).isEmpty then s
    else if c = 'x' then
      match r2.dropWhile Char.isDigit with
      | [] => s
      | d :: r4 =>
        if (r2.takeWhile Char.isDigit).isEmpty then s
        else if d = '-' then r4 else s
    else s

/-- The cleaned filename core used by `findMatchingGame`. -/
def filenameGamePart (originalFilename : List Char) : List Char :=
  stripDims (filenameStem originalFilename)

/-- The per-entry score accumulation of `findMatchingGame`, exactly as the
source computes it with sequential Math.max updates under two guards. -/
def entryScore (normalizedOcr normalizedFilename nm : List Char) : Nat :=
  let score1 : Nat := 0
  let score2 :=
    if normalizedOcr.isEmpty then score1
    else
      let a := if strIncludes nm normalizedOcr
               then max score1 (20 + normalizedOcr.length) else score1
      if strIncludes normalizedOcr nm then max a (20 + nm.length) else a
  if normalizedFilename.isEmpty then score2
  else
    let b := if strIncludes nm normalizedFilename
             then max score2 (10 + normalizedFilename.length) else score2
    if strIncludes normalizedFilename nm then max b (10 + nm.length) else b

/-- The effective score of a mapping entry: entries whose normalized game
name is empty are skipped by the loop, which is score 0 for selection. -/
def effScore (o f : List Char) (m : FilenameMappingEntry) : Nat :=
  let nm := normalizeText m.gameName
  if nm.isEmpty then 0 else entryScore o f nm

/-- Spec-side score: the maximum of the four independently applied
containment checks, as the spec words them. -/
def fourCheckMax (o f nm : List Char) : Nat :=
  max (max (if !o.isEmpty && strIncludes nm o then 20 + o.length else 0)
           (if !o.isEmpty && strIncludes o nm then 20 + nm.length else 0))
      (max (if !f.isEmpty && strIncludes nm f then 10 + f.length else 0)
           (if !f.isEmpty && strIncludes f nm then 10 + nm.length else 0))

/-- The for-of loop of `findMatchingGame`: carries bestMatch and
highestScore, skips entries with empty normalized name, and replaces the
best only on a strictly higher score. -/
def selectBestGo (o f : List Char) (best : Option FilenameMappingEntry) (highest : Nat) :
    List FilenameMappingEntry → Option FilenameMappingEntry × Nat
  | [] => (best, highest)
  | m :: rest =>
    let nm := normalizeText m.gameName
    if nm.isEmpty then selectBestGo o f best highest rest
    else
      let sc := entryScore o f nm
      if highest < sc then selectBestGo o f (some m) sc rest
      else selectBestGo o f best highest rest

/-- The normalized OCR text computed inside `findMatchingGame` (missing
text counts as empty). -/
def normalizedOcrOf (ocrText : Option (List Char)) : List Char :=
  normalizeText (ocrText.getD [])

/-- The normalized filename core computed inside `findMatchingGame`. -/
def normalizedFilenameOf (originalFilename : List Char) : List Char :=
  normalizeText (filenameGamePart originalFilename)

/-- `findMatchingGame` from src/App.tsx. -/
def findMatchingGame (ocrText : Option (List Char)) (originalFilename : List Char)
    (mappings : List FilenameMappingEntry) : Option FilenameMappingEntry :=
  (selectBestGo (normalizedOcrOf ocrText) (normalizedFilenameOf originalFilename)
    none 0 mappings).1

/-- The highest effective score over a list of entries. -/
def maxScore (o f : List Char) (l : List FilenameMappingEntry) : Nat :=
  l.foldr (fun m acc => max (effScore o f m) acc) 0

/-- The geometry classification computed by `getImageMetadata`. -/
inductive ImageKind
  | portrait
  | landscape
  | standard
deriving DecidableEq, Repr

/-- `getImageMetadata` classification: 500 by 693 is portrait, 500 by 333
is landscape, anything else is standard. -/
def imageTypeOfDims (width height : Nat) : ImageKind :=
  if width = 500 ∧ height = 693 then ImageKind.portrait
  else if width = 500 ∧ height = 333 then ImageKind.landscape
  else ImageKind.standard

/-- The archive subfolder chosen in `createAndDownloadZip`. -/
def subfolderFor : ImageKind → List Char
  | ImageKind.portrait => "portrait/".toList
  | ImageKind.landscape => "landscape/".toList
  | ImageKind.standard => []

/-- The archive entry path built by `createAndDownloadZip` for a completed
item: the suggested name at the root unless the provider is present and not
blank, in which case sanitized provider, slash, subfolder, suggested
name. -/
def filePathInZip (gameProvider : Option (List Char)) (imageType : ImageKind)
    (suggestedName : List Char) : List Char :=
  match gameProvider with
  | none => suggestedName
  | some p =>
    if p.isEmpty || (jsTrim p).isEmpty then suggestedName
    else sanitizeFilename p "default_provider".toList 50 ++
         '/' :: (subfolderFor imageType ++ suggestedName)

/-- `ImageProcessingStatus` from src types.ts. -/
inductive ImageProcessingStatus
  | queued
  | processing
  | ocr_extracting
  | name_matching
  | completed
  | error
  | api_key_missing
  | mapping_parse_error
deriving DecidableEq, Repr

/-- `ProcessedImage` from src types.ts (the file handle and object URL are
browser resources with no logical content and are not modelled). -/
structure ProcessedImage where
  id : Nat
  originalName : List Char
  status : ImageProcessingStatus
  ocrText : Option (List Char)
  suggestedName : Option (List Char)
  gameProvider : Option (List Char)
  errorMessage : Option (List Char)
  width : Option Nat
  height : Option Nat
  imageType : ImageKind
deriving DecidableEq, Repr

/-- `parseCustomMappings` from src/App.tsx (the entry-producing part; the
user-feedback message it also sets is display-only state, taken as an input
where later code reads it). -/
def parseCustomMappings (mappingsString : List Char) : List FilenameMappingEntry :=
  if (jsTrim mappingsString).isEmpty then []
  else
    match (jsTrim mappingsString).splitOn '\n' with
    | [] => []
    | headerRaw :: rest =>
      let headerLine := ((headerRaw.map Char.toLower).splitOn '\t').map jsTrim
      let gameNameIndex := headerLine.findIdx? (fun hc => hc == "name".toList)
      let imsCodeIndex := headerLine.findIdx? (fun hc => hc == "ims game code".toList)
      let providerIndex := headerLine.findIdx? (fun hc => hc == "game provider".toList)
      match gameNameIndex, imsCodeIndex with
      | some g, some i =>
        rest.filterMap (fun line =>
          let cells := (line.splitOn '\t').map jsTrim
          if cells.length > max g i then
            let gameName := cells.getD g []
            let imsGameCode := cells.getD i []
            let provider :=
              match providerIndex with
              | some pi =>
                if cells.length > pi then
                  (if (cells.getD pi []).isEmpty then none else some (cells.getD pi []))
                else none
              | none => none
            if gameName.isEmpty || imsGameCode.isEmpty then none
            else some ⟨gameName, imsGameCode, provider⟩
          else none)
      | _, _ => []

/-- The start-attempt message for a missing API key. -/
def apiKeyMissingStartMsg : List Char :=
  "Cannot start processing: API Key is missing. OCR functionality requires it.".toList

/-- The start-attempt message for empty pasted mapping text. -/
def emptyMappingStartMsg : List Char :=
  "Cannot start processing: Mapping data is empty. Please paste your game mappings.".toList

/-- The fixed stem of the start-attempt message for a parse yielding zero
entries. -/
def noEntriesBaseMsg : List Char :=
  "Cannot start processing: No valid mapping entries found. ".toList

/-- The generic detail appended when the stored parse message does not
start with an error tag. -/
def noEntriesDefaultDetail : List Char :=
  "Please check mapping data format, ensure headers (\x27Name\x27, \x27IMS Game Code\x27) are correct and data exists under them.".toList

/-- Whether the stored parse message, lower-cased, starts with the error
tag. -/
def startsWithErrorTag (m : List Char) : Bool :=
  ("error:".toList).isPrefixOf (m.map Char.toLower)

/-- The start-attempt message when the parse yields zero entries, built
from the (stale closure) value of mappingParseMessage. -/
def noEntriesMsg (mappingParseMessage : Option (List Char)) : List Char :=
  noEntriesBaseMsg ++
    (match mappingParseMessage with
     | some m => if startsWithErrorTag m then m else noEntriesDefaultDetail
     | none => noEntriesDefaultDetail)

/-- The start-attempt message when no image has been uploaded. -/
def noImagesUploadedMsg : List Char :=
  "Cannot start processing: No images have been uploaded.".toList

/-- The start-attempt message when images exist but none is
retry-eligible. -/
def noImagesEligibleMsg : List Char :=
  "Cannot start processing: No images are currently pending or in an error state to reprocess.".toList

/-- The statuses eligible for (re)processing in
`handleStartAllProcessing`. -/
def retryEligible (st : ImageProcessingStatus) : Bool :=
  st == ImageProcessingStatus.queued || st == ImageProcessingStatus.error ||
  st == ImageProcessingStatus.api_key_missing ||
  st == ImageProcessingStatus.mapping_parse_error

/-- The re-queue update applied by `handleStartAllProcessing` and
`handleRetry`: status queued, all result fields discarded. -/
def requeueCleared (it : ProcessedImage) : ProcessedImage :=
  { it with status := ImageProcessingStatus.queued, errorMessage := none,
            gameProvider := none, suggestedName := none, ocrText := none }

/-- The slice of component state that `handleStartAllProcessing`
writes. -/
structure StartAllResult where
  processedImages : List ProcessedImage
  startProcessingFlag : Bool
  manualFilenameMappings : List FilenameMappingEntry
  startAttemptErrorMessage : Option (List Char)
deriving Repr

/-- `handleStartAllProcessing` from src/App.tsx as a pure function of the
state it reads.  The mappingParseMessage argument is the pre-invocation
value the closure sees.  The unused-mappings advisory note is display-only
and not modelled. -/
def handleStartAllProcessing (apiKey pastedCustomMappings : List Char)
    (mappingParseMessage : Option (List Char)) (processedImages : List ProcessedImage)
    (startProcessingFlag : Bool) : StartAllResult :=
  let currentParsedMappings := parseCustomMappings pastedCustomMappings
  if apiKey.isEmpty then
    ⟨processedImages, startProcessingFlag, currentParsedMappings, some apiKeyMissingStartMsg⟩
  else if (jsTrim pastedCustomMappings).isEmpty then
    ⟨processedImages, startProcessingFlag, currentParsedMappings, some emptyMappingStartMsg⟩
  else if currentParsedMappings.isEmpty then
    ⟨processedImages, startProcessingFlag, currentParsedMappings,
      some (noEntriesMsg mappingParseMessage)⟩
  else
    let imagesToProcess := processedImages.filter (fun img => retryEligible img.status)
    if imagesToProcess.isEmpty then
      ⟨processedImages, startProcessingFlag, currentParsedMappings,
        some (if processedImages.isEmpty then noImagesUploadedMsg else noImagesEligibleMsg)⟩
    else
      ⟨processedImages.map (fun img =>
          if imagesToProcess.any (fun pr => pr.id == img.id) then requeueCleared img else img),
        true, currentParsedMappings, none⟩

/-- The no-text sentinel from src constants.ts. -/
def noTextDetectedMarker : List Char := "NO_TEXT_DETECTED".toList

/-- The ocrText sentinel written on extraction failure. -/
def ocrFailedMarker : List Char := "OCR_FAILED".toList

/-- Error message for a skipped item when the key is absent mid-run. -/
def apiKeySkippedMsg : List Char := "API Key is missing. OCR skipped.".toList

/-- Error message for a skipped item when no mappings are loaded. -/
def noMappingsLoadedMsg : List Char := "No valid mappings loaded. Cannot process.".toList

/-- Error message attached to an upload made with no key set. -/
def apiKeyMissingShortMsg : List Char := "API Key is missing.".toList

/-- Error message for a metadata read failure at upload time. -/
def metaReadFailMsg : List Char := "Could not read image dimensions.".toList

/-- Fallback message for an OCR extraction failure. -/
def ocrFailDefaultMsg : List Char := "Failed OCR extraction.".toList

/-- Error message when the matcher returns no entry. -/
def gameNotFoundMsg : List Char := "Game not found in mappings.".toList

/-- Fallback message for a crash in the matching phase. -/
def matchCrashDefaultMsg : List Char := "Failed to process and match name.".toList

/-- JS string-or-default: the default when the string is empty. -/
def orDefault (msg dflt : List Char) : List Char :=
  if msg.isEmpty then dflt else msg

/-- JS string-or-default on a nullable string. -/
def jsOr (t : Option (List Char)) (dflt : List Char) : List Char :=
  match t with
  | some x => orDefault x dflt
  | none => dflt

/-- The slice of App component state that drives the processing pipeline.
The currentProcessing field holds the id of the item whose
processSingleImage call is in flight (the boolean busy flag of the source
plus the identity the running closure captured); nextId models fresh unique
id generation (the data model requires ids unique per upload).
Display-only message state other than mappingParseMessage is not
tracked. -/
structure AppState where
  processedImages : List ProcessedImage
  currentProcessing : Option Nat
  startProcessingFlag : Bool
  isZipping : Bool
  apiKey : List Char
  pastedCustomMappings : List Char
  manualFilenameMappings : List FilenameMappingEntry
  mappingParseMessage : Option (List Char)
  nextId : Nat
deriving Repr

/-- The per-item state update idiom used throughout src/App.tsx: map over
the items, replacing those whose id matches. -/
def updateById (items : List ProcessedImage) (i : Nat)
    (upd : ProcessedImage → ProcessedImage) : List ProcessedImage :=
  items.map (fun img => if img.id == i then upd img else img)

/-- The item record created by `handleFilesSelected` on a successful
metadata read. -/
def newUploadedImage (apiKey : List Char) (i : Nat) (name : List Char)
    (w h : Nat) : ProcessedImage :=
  { id := i, originalName := name,
    status := if apiKey.isEmpty then ImageProcessingStatus.api_key_missing
              else ImageProcessingStatus.queued,
    ocrText := none, suggestedName := none, gameProvider := none,
    errorMessage := if apiKey.isEmpty then some apiKeyMissingShortMsg else none,
    width := some w, height := some h, imageType := imageTypeOfDims w h }

/-- The item record created by `handleFilesSelected` when reading the
image dimensions fails. -/
def newFailedUploadImage (i : Nat) (name : List Char) : ProcessedImage :=
  { id := i, originalName := name, status := ImageProcessingStatus.error,
    ocrText := none, suggestedName := none, gameProvider := none,
    errorMessage := some metaReadFailMsg,
    width := none, height := none, imageType := ImageKind.standard }

/-- The state written to the item by the matching phase of
`processSingleImage`: Completed with a sanitized suggested name and the
provider of the entry when the matcher returns an entry, Error
otherwise. -/
def matchDoneUpd (t : Option (List Char)) (name : List Char)
    (mappings : List FilenameMappingEntry) (img : ProcessedImage) : ProcessedImage :=
  match findMatchingGame t name mappings with
  | some entry =>
    { img with status := ImageProcessingStatus.completed,
               suggestedName := some (sanitizeFilename entry.imsGameCode
                 entry.imsGameCode 50 ++ ".webp".toList),
               gameProvider := entry.provider,
               errorMessage := none }
  | none =>
    { img with status := ImageProcessingStatus.error,
               errorMessage := some gameNotFoundMsg }

/-- The statuses whose retry button is rendered (canRetry in
ImageCard). -/
def canRetry (st : ImageProcessingStatus) : Bool :=
  st == ImageProcessingStatus.error || st == ImageProcessingStatus.api_key_missing ||
  st == ImageProcessingStatus.mapping_parse_error

/-- One evaluation of the main processing-loop effect: when idle, running
and not zipping, select the first Queued item (marking it in flight);
otherwise, clear the run flag when the flag is set and the item list is
non-empty. -/
def schedulerTick (s : AppState) : AppState × Option ProcessedImage :=
  if s.currentProcessing.isSome || !s.startProcessingFlag || s.isZipping then (s, none)
  else
    match s.processedImages.find? (fun img =>
        img.status == ImageProcessingStatus.queued) with
    | some it => ({ s with currentProcessing := some it.id }, some it)
    | none =>
      if s.startProcessingFlag && decide (0 < s.processedImages.length)
      then ({ s with startProcessingFlag := false }, none)
      else (s, none)

/-- One asynchronous step of the application: uploads, the scheduler pick
with the synchronous precondition checks of `processSingleImage`,
resolution of the in-flight OCR call, the matching phase, automatic
run-flag clearing, start-all, per-item retry, editing the mapping text, and
setting the API key.  The OCR text, captured original name and captured
mapping list of the running closure appear as constructor parameters. -/
inductive Step : AppState → AppState → Prop
  | upload (s : AppState) (name : List Char) (w h : Nat) :
      Step s { s with
        processedImages :=
          s.processedImages ++ [newUploadedImage s.apiKey s.nextId name w h],
        nextId := s.nextId + 1 }
  | uploadMetaFail (s : AppState) (name : List Char) :
      Step s { s with
        processedImages := s.processedImages ++ [newFailedUploadImage s.nextId name],
        nextId := s.nextId + 1 }
  | scheduleNoKey (s : AppState) (it : ProcessedImage) :
      s.currentProcessing = none → s.startProcessingFlag = true → s.isZipping = false →
      s.processedImages.find? (fun img =>
        img.status == ImageProcessingStatus.queued) = some it →
      s.apiKey = [] →
      Step s { s with
        processedImages := updateById s.processedImages it.id (fun img =>
          { img with status := ImageProcessingStatus.api_key_missing,
                     errorMessage := some apiKeySkippedMsg }) }
  | scheduleNoMappings (s : AppState) (it : ProcessedImage) :
      s.currentProcessing = none → s.startProcessingFlag = true → s.isZipping = false →
      s.processedImages.find? (fun img =>
        img.status == ImageProcessingStatus.queued) = some it →
      s.apiKey ≠ [] → s.manualFilenameMappings = [] →
      Step s { s with
        processedImages := updateById s.processedImages it.id (fun img =>
          { img with status := ImageProcessingStatus.mapping_parse_error,
                     errorMessage := some noMappingsLoadedMsg }) }
  | scheduleStart (s : AppState) (it : ProcessedImage) :
      s.currentProcessing = none → s.startProcessingFlag = true → s.isZipping = false →
      s.processedImages.find? (fun img =>
        img.status == ImageProcessingStatus.queued) = some it →
      s.apiKey ≠ [] → s.manualFilenameMappings ≠ [] →
      Step s { s with
        processedImages := updateById s.processedImages it.id (fun img =>
          { img with status := ImageProcessingStatus.ocr_extracting }),
        currentProcessing := some it.id }
  | ocrOk (s : AppState) (i : Nat) (t : Option (List Char)) :
      s.currentProcessing = some i →
      Step s { s with
        processedImages := updateById s.processedImages i (fun img =>
          { img with ocrText := some (jsOr t noTextDetectedMarker),
                     status := ImageProcessingStatus.name_matching }) }
  | ocrFail (s : AppState) (i : Nat) (msg : List Char) :
      s.currentProcessing = some i →
      Step s { s with
        processedImages := updateById s.processedImages i (fun img =>
          { img with status := ImageProcessingStatus.error,
                     errorMessage := some (orDefault msg ocrFailDefaultMsg),
                     ocrText := some ocrFailedMarker }),
        currentProcessing := none }
  | matchDone (s : AppState) (i : Nat) (t : Option (List Char)) (name : List Char)
      (mappings : List FilenameMappingEntry) :
      s.currentProcessing = some i →
      Step s { s with
        processedImages := updateById s.processedImages i (matchDoneUpd t name mappings),
        currentProcessing := none }
  | matchCrash (s : AppState) (i : Nat) (msg : List Char) :
      s.currentProcessing = some i →
      Step s { s with
        processedImages := updateById s.processedImages i (fun img =>
          { img with status := ImageProcessingStatus.error,
                     errorMessage := some (orDefault msg matchCrashDefaultMsg) }),
        currentProcessing := none }
  | schedulerIdle (s : AppState) :
      s.currentProcessing = none → s.startProcessingFlag = true → s.isZipping = false →
      s.processedImages.find? (fun img =>
        img.status == ImageProcessingStatus.queued) = none →
      0 < s.processedImages.length →
      Step s { s with startProcessingFlag := false }
  | startAll (s : AppState) :
      Step s { s with
        processedImages := (handleStartAllProcessing s.apiKey s.pastedCustomMappings
          s.mappingParseMessage s.processedImages s.startProcessingFlag).processedImages,
        startProcessingFlag := (handleStartAllProcessing s.apiKey s.pastedCustomMappings
          s.mappingParseMessage s.processedImages s.startProcessingFlag).startProcessingFlag,
        manualFilenameMappings := (handleStartAllProcessing s.apiKey s.pastedCustomMappings
          s.mappingParseMessage s.processedImages s.startProcessingFlag).manualFilenameMappings }
  | retry (s : AppState) (i : Nat) :
      (∀ img ∈ s.processedImages, img.id = i → canRetry img.status = true) →
      Step s { s with
        processedImages := updateById s.processedImages i requeueCleared,
        startProcessingFlag :=
          if !s.startProcessingFlag && s.currentProcessing.isNone then true
          else s.startProcessingFlag }
  | setPasted (s : AppState) (t : List Char) :
      Step s { s with pastedCustomMappings := t }
  | setKeyEnter (s : AppState) (input : List Char) :
      Step s { s with apiKey := jsTrim input }
  | setKeyButton (s : AppState) (input : List Char) :
      jsTrim input ≠ [] →
      Step s { s with
        apiKey := jsTrim input,
        processedImages := s.processedImages.map (fun img =>
          if img.status == ImageProcessingStatus.api_key_missing
          then { img with status := ImageProcessingStatus.queued, errorMessage := none }
          else img) }

/-- The initial component state: no items, nothing running, no key, empty
mapping text. -/
def initState : AppState :=
  { processedImages := [], currentProcessing := none, startProcessingFlag := false,
    isZipping := false, apiKey := [], pastedCustomMappings := [],
    manualFilenameMappings := [], mappingParseMessage := none, nextId := 0 }

/-- States reachable through the modelled operations. -/
inductive Reachable : AppState → Prop
  | init : Reachable initState
  | step {s t : AppState} : Reachable s → Step s t → Reachable t

/-- A state with the run flag raised and an empty item list (run flag set,
idle, not zipping, no Queued item). -/
def emptyRunState : AppState :=
  { processedImages := [], currentProcessing := none, startProcessingFlag := true,
    isZipping := false, apiKey := "k".toList, pastedCustomMappings := [],
    manualFilenameMappings := [], mappingParseMessage := none, nextId := 0 }

/-- A state with one completed and one queued item, flag raised and
idle. -/
def twoItemRunState : AppState :=
  { processedImages :=
      [⟨0, "done.webp".toList, ImageProcessingStatus.completed, none,
        some "g.webp".toList, none, none, some 500, some 693, ImageKind.portrait⟩,
       ⟨1, "todo.webp".toList, ImageProcessingStatus.queued, none, none, none,
        none, some 500, some 333, ImageKind.landscape⟩],
    currentProcessing := none, startProcessingFlag := true, isZipping := false,
    apiKey := "k".toList, pastedCustomMappings := [],
    manualFilenameMappings := [], mappingParseMessage := none, nextId := 2 }

/-- An item occupying the Extracting or Matching window. -/
def inFlightB (st : ImageProcessingStatus) : Bool :=
  st == ImageProcessingStatus.ocr_extracting ||
  st == ImageProcessingStatus.name_matching

/-- The per-item field invariant: Completed has a non-empty suggested
name, the error-family statuses have a non-empty error message. -/
def itemFieldsOk (x : ProcessedImage) : Prop :=
  (x.status = ImageProcessingStatus.completed →
    ∃ n, x.suggestedName = some n ∧ n ≠ []) ∧
  ((x.status = ImageProcessingStatus.error ∨
    x.status = ImageProcessingStatus.api_key_missing ∨
    x.status = ImageProcessingStatus.mapping_parse_error) →
    ∃ m, x.errorMessage = some m ∧ m ≠ [])

lemma selectBestGo_cons_def (o f : List Char) (b : Option FilenameMappingEntry) (h : Nat)
    (m : FilenameMappingEntry) (rest : List FilenameMappingEntry) :
    selectBestGo o f b h (m :: rest) =
      (if (normalizeText m.gameName).isEmpty then selectBestGo o f b h rest
       else if h < entryScore o f (normalizeText m.gameName)
            then selectBestGo o f (some m) (entryScore o f (normalizeText m.gameName)) rest
            else selectBestGo o f b h rest) := rfl

lemma selectBestGo_cons (o f : List Char) (b : Option FilenameMappingEntry) (h : Nat)
    (m : FilenameMappingEntry) (rest : List FilenameMappingEntry) :
    selectBestGo o f b h (m :: rest) =
      if h < effScore o f m then selectBestGo o f (some m) (effScore o f m) rest
      else selectBestGo o f b h rest := by
  rw [selectBestGo_cons_def]
  unfold effScore
  cases hnm : (normalizeText m.gameName).isEmpty <;> simp [hnm]

lemma maxScore_cons (o f : List Char) (m : FilenameMappingEntry)
    (l : List FilenameMappingEntry) :
    maxScore o f (m :: l) = max (effScore o f m) (maxScore o f l) := rfl

lemma effScore_le_maxScore (o f : List Char) {m : FilenameMappingEntry}
    {l : List FilenameMappingEntry} (hm : m ∈ l) :
    effScore o f m ≤ maxScore o f l := by
  induction l with
  | nil => cases hm
  | cons a l ih =>
    rw [maxScore_cons]
    rcases List.mem_cons.mp hm with rfl | hm
    · exact Nat.le_max_left _ _
    · exact le_trans (ih hm) (Nat.le_max_right _ _)

lemma maxScore_eq_zero_iff (o f : List Char) (l : List FilenameMappingEntry) :
    maxScore o f l = 0 ↔ ∀ m ∈ l, effScore o f m = 0 := by
  induction l with
  | nil => simp [maxScore]
  | cons a l ih =>
    rw [maxScore_cons]
    simp only [List.mem_cons, Nat.max_eq_zero_iff]
    constructor
    · rintro ⟨h1, h2⟩ m (rfl | hm)
      · exact h1
      · exact ih.mp h2 m hm
    · intro hall
      exact ⟨hall a (Or.inl rfl), ih.mpr fun m hm => hall m (Or.inr hm)⟩

lemma selectBestGo_fst_of_le (o f : List Char) :
    ∀ (l : List FilenameMappingEntry) (b : Option FilenameMappingEntry) (h : Nat),
      maxScore o f l ≤ h → (selectBestGo o f b h l).1 = b := by
  intro l
  induction l with
  | nil => intro b h _; rfl
  | cons m rest ih =>
    intro b h hle
    rw [maxScore_cons] at hle
    rw [selectBestGo_cons]
    have h1 : ¬ h < effScore o f m := by omega
    rw [if_neg h1]
    exact ih b h (by omega)

lemma selectBestGo_fst_of_lt (o f : List Char) :
    ∀ (l : List FilenameMappingEntry) (b : Option FilenameMappingEntry) (h : Nat),
      h < maxScore o f l →
      ∃ i, ∃ hi : i < l.length,
        (selectBestGo o f b h l).1 = some l[i] ∧
        effScore o f l[i] = maxScore o f l ∧
        ∀ j, (hj : j < l.length) → j < i → effScore o f l[j] < maxScore o f l := by
  intro l
  induction l with
  | nil => intro b h hlt; simp [maxScore] at hlt
  | cons m rest ih =>
    intro b h hlt
    rw [maxScore_cons] at hlt
    rw [selectBestGo_cons]
    by_cases hc : h < effScore o f m
    · rw [if_pos hc]
      by_cases hr : maxScore o f rest ≤ effScore o f m
      · have hM : maxScore o f (m :: rest) = effScore o f m := by
          rw [maxScore_cons]; omega
        refine ⟨0, by simp, ?_, ?_, ?_⟩
        · rw [selectBestGo_fst_of_le o f rest (some m) (effScore o f m) hr]
          simp
        · simpa using hM.symm
        · intro j hj hj0; omega
      · push_neg at hr
        obtain ⟨i, hi, hfst, hmax, hpre⟩ := ih (some m) (effScore o f m) hr
        have hM : maxScore o f (m :: rest) = maxScore o f rest := by
          rw [maxScore_cons]; omega
        refine ⟨i + 1, by simpa using Nat.succ_lt_succ hi, ?_, ?_, ?_⟩
        · simpa using hfst
        · simpa using hmax.trans hM.symm
        · intro j hj hji
          rw [hM]
          cases j with
          | zero => simpa using hr
          | succ j' =>
            have hj' : j' < rest.length := by simpa using hj
            simpa using hpre j' hj' (by omega)
    · rw [if_neg hc]
      have hle : effScore o f m ≤ h := by omega
      have hlt' : h < maxScore o f rest := by omega
      obtain ⟨i, hi, hfst, hmax, hpre⟩ := ih b h hlt'
      have hM : maxScore o f (m :: rest) = maxScore o f rest := by
        rw [maxScore_cons]; omega
      refine ⟨i + 1, by simpa using Nat.succ_lt_succ hi, ?_, ?_, ?_⟩
      · simpa using hfst
      · simpa using hmax.trans hM.symm
      · intro j hj hji
        rw [hM]
        cases j with
        | zero => simpa using (by omega : effScore o f m < maxScore o f rest)
        | succ j' =>
          have hj' : j' < rest.length := by simpa using hj
          simpa using hpre j' hj' (by omega)

lemma selectBestGo_skips_empty (o f : List Char) :
    ∀ (l : List FilenameMappingEntry) (b : Option FilenameMappingEntry) (h : Nat),
      selectBestGo o f b h l =
        selectBestGo o f b h (l.filter (fun m => !(normalizeText m.gameName).isEmpty)) := by
  intro l
  induction l with
  | nil => intro b h; rfl
  | cons m rest ih =>
    intro b h
    cases hnm : (normalizeText m.gameName).isEmpty
    · rw [List.filter_cons_of_pos (by simp [hnm]), selectBestGo_cons_def,
        selectBestGo_cons_def]
      simp only [hnm, Bool.false_eq_true, if_false]
      split
      · exact ih _ _
      · exact ih _ _
    · rw [List.filter_cons_of_neg (by simp [hnm]), selectBestGo_cons_def]
      simp only [hnm, if_true]
      exact ih b h

/-- C1: for every ocrText, originalFilename and mapping list,
`findMatchingGame` assigns each entry with non-empty normalized game name a
score equal to the maximum of the four independently applied containment
checks (20 plus length for the OCR tier, 10 plus length for the filename
tier, 0 when none fires), and entries whose normalized game name is empty
are skipped entirely (removing them does not change the result). -/
theorem c1_score_is_max_of_four_checks :
    (∀ o f nm : List Char, nm ≠ [] → entryScore o f nm = fourCheckMax o f nm) ∧
    (∀ (ocrText : Option (List Char)) (originalFilename : List Char)
       (mappings : List FilenameMappingEntry),
       findMatchingGame ocrText originalFilename mappings =
         findMatchingGame ocrText originalFilename
           (mappings.filter (fun m => !(normalizeText m.gameName).isEmpty))) := by
  constructor
  · intro o f nm _
    cases hO : o.isEmpty <;> cases hF : f.isEmpty <;>
      cases h1 : strIncludes nm o <;> cases h2 : strIncludes o nm <;>
      cases h3 : strIncludes nm f <;> cases h4 : strIncludes f nm <;>
      simp [entryScore, fourCheckMax, hO, hF, h1, h2, h3, h4] <;> omega
  · intro ocr fn ms
    unfold findMatchingGame
    rw [selectBestGo_skips_empty]

/-- Witness for C1 at a concrete input: OCR gamedeluxe against mapping
name game scores 24 = 20 + 4 by both formulations. -/
theorem c1_witness :
    entryScore "gamedeluxe".toList "x".toList "game".toList =
      fourCheckMax "gamedeluxe".toList "x".toList "game".toList ∧
    fourCheckMax "gamedeluxe".toList "x".toList "game".toList = 24 :=
  ⟨c1_score_is_max_of_four_checks.1 _ _ _ (by decide), by decide⟩

/-- C2: `findMatchingGame` returns none exactly when every entry has
effective score 0; a returned entry is the first whose score strictly
exceeds every earlier score and is not exceeded by any later one; and when
no normalized name is in any containment relation with the normalized OCR
text or filename core, the result is none. -/
theorem c2_first_strict_highest_wins :
    ∀ (ocrText : Option (List Char)) (originalFilename : List Char)
      (mappings : List FilenameMappingEntry),
    (findMatchingGame ocrText originalFilename mappings = none ↔
      ∀ m ∈ mappings,
        effScore (normalizedOcrOf ocrText) (normalizedFilenameOf originalFilename) m = 0) ∧
    (∀ e, findMatchingGame ocrText originalFilename mappings = some e →
      ∃ i, ∃ hi : i < mappings.length,
        mappings[i] = e ∧
        0 < effScore (normalizedOcrOf ocrText) (normalizedFilenameOf originalFilename)
              mappings[i] ∧
        (∀ j, (hj : j < mappings.length) → j < i →
          effScore (normalizedOcrOf ocrText) (normalizedFilenameOf originalFilename)
              mappings[j] <
            effScore (normalizedOcrOf ocrText) (normalizedFilenameOf originalFilename)
              mappings[i]) ∧
        (∀ j, (hj : j < mappings.length) →
          effScore (normalizedOcrOf ocrText) (normalizedFilenameOf originalFilename)
              mappings[j] ≤
            effScore (normalizedOcrOf ocrText) (normalizedFilenameOf originalFilename)
              mappings[i])) ∧
    ((∀ m ∈ mappings,
        strIncludes (normalizeText m.gameName) (normalizedOcrOf ocrText) = false ∧
        strIncludes (normalizedOcrOf ocrText) (normalizeText m.gameName) = false ∧
        strIncludes (normalizeText m.gameName) (normalizedFilenameOf originalFilename) = false ∧
        strIncludes (normalizedFilenameOf originalFilename) (normalizeText m.gameName) = false) →
      findMatchingGame ocrText originalFilename mappings = none) := by
  intro ocr fn ms
  have hfmg : findMatchingGame ocr fn ms =
      (selectBestGo (normalizedOcrOf ocr) (normalizedFilenameOf fn) none 0 ms).1 := rfl
  refine ⟨⟨?_, ?_⟩, ?_, ?_⟩
  · intro hnone
    rw [← maxScore_eq_zero_iff]
    by_contra hne
    have hpos : 0 < maxScore (normalizedOcrOf ocr) (normalizedFilenameOf fn) ms :=
      Nat.pos_of_ne_zero hne
    obtain ⟨i, hi, hfst, _, _⟩ := selectBestGo_fst_of_lt _ _ ms none 0 hpos
    rw [hfmg, hfst] at hnone
    cases hnone
  · intro hall
    rw [hfmg]
    exact selectBestGo_fst_of_le _ _ ms none 0
      (le_of_eq ((maxScore_eq_zero_iff _ _ ms).mpr hall))
  · intro e he
    rcases Nat.eq_zero_or_pos (maxScore (normalizedOcrOf ocr) (normalizedFilenameOf fn) ms)
      with hz | hpos
    · rw [hfmg, selectBestGo_fst_of_le _ _ ms none 0 (le_of_eq hz)] at he
      cases he
    · obtain ⟨i, hi, hfst, hmax, hpre⟩ := selectBestGo_fst_of_lt _ _ ms none 0 hpos
      rw [hfmg, hfst] at he
      have heq : ms[i] = e := Option.some.inj he
      refine ⟨i, hi, heq, ?_, ?_, ?_⟩
      · rw [hmax]; exact hpos
      · intro j hj hji
        rw [hmax]; exact hpre j hj hji
      · intro j hj
        rw [hmax]
        exact effScore_le_maxScore _ _ (List.getElem_mem hj)
  · intro hnc
    have hall : ∀ m ∈ ms,
        effScore (normalizedOcrOf ocr) (normalizedFilenameOf fn) m = 0 := by
      intro m hm
      obtain ⟨h1, h2, h3, h4⟩ := hnc m hm
      unfold effScore
      cases hnm : (normalizeText m.gameName).isEmpty
      · simp only [hnm, Bool.false_eq_true, if_false]
        unfold entryScore
        simp [h1, h2, h3, h4]
      · simp [hnm]
    rw [hfmg]
    exact selectBestGo_fst_of_le _ _ ms none 0
      (le_of_eq ((maxScore_eq_zero_iff _ _ ms).mpr hall))

/-- Witness for C2 at a concrete input: with no containment relation at
all, the matcher returns none. -/
theorem c2_witness :
    findMatchingGame (some "zzz".toList) "qqq.webp".toList
      [⟨"aaa".toList, "c1".toList, none⟩] = none :=
  (c2_first_strict_highest_wins (some "zzz".toList) "qqq.webp".toList
    [⟨"aaa".toList, "c1".toList, none⟩]).2.2 (by decide)

/-- C4: `sanitizeFilename` computes exactly the ordered pipeline of the
spec — strip a trailing image-format suffix, replace characters outside
A-Za-z0-9, underscore, dot, dash with an underscore, collapse whitespace
runs, truncate to maxLength, trim edge separators — and returns the
fallback exactly when that pipeline result is empty. -/
theorem c4_sanitize_is_spec_pipeline :
    ∀ (name fallbackName : List Char) (maxLength : Nat),
      sanitizeFilename name fallbackName maxLength =
        (if sanitizeSteps name maxLength = [] then fallbackName
         else sanitizeSteps name maxLength) := by
  intro name fb ml
  suffices h : ∀ s3 : List Char,
      (if ((((if ml < s3.length then s3.take ml else s3).reverse.dropWhile
            isTrimSep).reverse).dropWhile isTrimSep).isEmpty then fb
       else (((if ml < s3.length then s3.take ml else s3).reverse.dropWhile
            isTrimSep).reverse).dropWhile isTrimSep) =
      (if trimEdgeSeps (List.take ml s3) = [] then fb
       else trimEdgeSeps (List.take ml s3)) by
    exact h (collapseWs (replaceDisallowed (stripFormatSuffix name)))
  intro s3
  have ht : (if ml < s3.length then s3.take ml else s3) = List.take ml s3 := by
    split
    · rfl
    · next hh => exact (List.take_of_length_le (by omega)).symm
  rw [ht]
  simp only [trimEdgeSeps, List.rdropWhile, List.isEmpty_iff]

/-- C10: when the original filename contains no dot, `findMatchingGame`
uses the whole filename — minus any leading dimension marker — as the
filename core, not the empty string. -/
theorem c10_dotless_filename_keeps_whole_name :
    ∀ (name : List Char), '.' ∉ name →
      filenameGamePart name = stripDims name ∧
      ∀ (ocr : Option (List Char)) (ms : List FilenameMappingEntry),
        findMatchingGame ocr name ms =
          (selectBestGo (normalizedOcrOf ocr) (normalizeText (stripDims name))
            none 0 ms).1 := by
  intro name hdot
  have hstem : filenameStem name = name := by
    unfold filenameStem
    have hnil : name.reverse.dropWhile (fun c => c ≠ '.') = [] := by
      rw [List.dropWhile_eq_nil_iff]
      intro x hx
      simp only [ne_eq, decide_eq_true_eq]
      intro hxx
      exact hdot (by rw [← hxx]; exact List.mem_reverse.mp hx)
    rw [hnil]
    simp
  refine ⟨?_, ?_⟩
  · unfold filenameGamePart
    rw [hstem]
  · intro ocr ms
    unfold findMatchingGame normalizedFilenameOf filenameGamePart
    rw [hstem]

/-- Witness for C10 at a concrete input: a dotless filename with a
dimension marker keeps everything after the marker. -/
theorem c10_witness :
    filenameGamePart "540x540-game".toList = stripDims "540x540-game".toList ∧
    stripDims "540x540-game".toList = "game".toList :=
  ⟨(c10_dotless_filename_keeps_whole_name "540x540-game".toList (by decide)).1,
   by decide⟩

/-- Counterexample to C3 as stated: a completed item with provider
Playtech and geometry exactly 500 by 693 produces the path
Playtech/portrait/name.webp — the sanitizer preserves letter case — and not
the lower-case playtech/portrait/name.webp the claim asserts. -/
theorem c3_counterexample :
    filePathInZip (some "Playtech".toList) (imageTypeOfDims 500 693)
        "name.webp".toList = "Playtech/portrait/name.webp".toList ∧
    filePathInZip (some "Playtech".toList) (imageTypeOfDims 500 693)
        "name.webp".toList ≠ "playtech/portrait/name.webp".toList := by
  exact ⟨by decide, by decide⟩

/-- C3 (amended): the archive entry path is the suggested name at the root
when the provider is absent or blank, and otherwise sanitized provider,
slash, geometry subfolder, suggested name, with the subfolder portrait for
exactly 500 by 693 and landscape for exactly 500 by 333; the Playtech
example yields Playtech/portrait/name.webp (letter case preserved). -/
theorem c3_archive_path :
    (∀ (it : ImageKind) (sn : List Char), filePathInZip none it sn = sn) ∧
    (∀ (p : List Char) (it : ImageKind) (sn : List Char), jsTrim p = [] →
      filePathInZip (some p) it sn = sn) ∧
    (∀ (p : List Char) (it : ImageKind) (sn : List Char), jsTrim p ≠ [] →
      filePathInZip (some p) it sn =
        sanitizeFilename p "default_provider".toList 50 ++
          '/' :: (subfolderFor it ++ sn)) ∧
    (∀ w h : Nat,
      (imageTypeOfDims w h = ImageKind.portrait ↔ w = 500 ∧ h = 693) ∧
      (imageTypeOfDims w h = ImageKind.landscape ↔ w = 500 ∧ h = 333)) ∧
    filePathInZip (some "Playtech".toList) (imageTypeOfDims 500 693)
        "name.webp".toList = "Playtech/portrait/name.webp".toList := by
  refine ⟨?_, ?_, ?_, ?_, by decide⟩
  · intro it sn; rfl
  · intro p it sn hp
    have hdef : filePathInZip (some p) it sn =
        if p.isEmpty || (jsTrim p).isEmpty then sn
        else sanitizeFilename p "default_provider".toList 50 ++
          '/' :: (subfolderFor it ++ sn) := rfl
    have hcond : (p.isEmpty || (jsTrim p).isEmpty) = true := by
      simp [List.isEmpty_iff, hp]
    rw [hdef, if_pos hcond]
  · intro p it sn hp
    have hpne : p ≠ [] := by
      intro hp0
      exact hp (by rw [hp0]; rfl)
    have hdef : filePathInZip (some p) it sn =
        if p.isEmpty || (jsTrim p).isEmpty then sn
        else sanitizeFilename p "default_provider".toList 50 ++
          '/' :: (subfolderFor it ++ sn) := rfl
    have hcond : ¬ (p.isEmpty || (jsTrim p).isEmpty) = true := by
      simp [List.isEmpty_iff, hp, hpne]
    rw [hdef, if_neg hcond]
  · intro w h
    unfold imageTypeOfDims
    split_ifs with h1 h2 <;> simp_all

/-- Witness for the amended C3 at a concrete input with a landscape
geometry. -/
theorem c3_witness :
    jsTrim "Playtech".toList ≠ [] ∧
    filePathInZip (some "Playtech".toList) ImageKind.landscape "n.webp".toList =
      sanitizeFilename "Playtech".toList "default_provider".toList 50 ++
        '/' :: (subfolderFor ImageKind.landscape ++ "n.webp".toList) :=
  ⟨by decide, c3_archive_path.2.2.1 _ _ _ (by decide)⟩

example :
    parseCustomMappings "name\tgame provider\tims game code\nGameA\tProvX\tcode1\n\tProvY\tcode2".toList =
      [⟨"GameA".toList, "code1".toList, some "ProvX".toList⟩] := by decide

/-- Every no-entries message extends the fixed stem. -/
lemma noEntriesMsg_eq_append (mpm : Option (List Char)) :
    ∃ t, noEntriesMsg mpm = noEntriesBaseMsg ++ t :=
  ⟨_, rfl⟩

/-- A list extending l cannot equal a list that l is no prefix of. -/
lemma append_ne_of_not_isPrefix {l s : List Char} (h : ¬ l <+: s) :
    ∀ x, l ++ x ≠ s :=
  fun x hx => h ⟨x, hx⟩

/-- The no-entries message differs from any string the stem is no prefix
of. -/
lemma noEntriesMsg_ne {s : List Char} (h : ¬ noEntriesBaseMsg <+: s) :
    ∀ mpm, noEntriesMsg mpm ≠ s := by
  intro mpm heq
  obtain ⟨t, ht⟩ := noEntriesMsg_eq_append mpm
  rw [ht] at heq
  exact append_ne_of_not_isPrefix h t heq

/-- A non-nil character list has isEmpty false. -/
lemma isEmpty_false_of_ne_nil {l : List Char} (h : l ≠ []) : l.isEmpty = false := by
  cases l with
  | nil => exact absurd rfl h
  | cons a l => rfl

/-- C8: whenever any of the four start-all failure preconditions holds,
the handler leaves every item and the run flag unchanged and reports an
error message; the messages of the four cases are pairwise distinct; and
invoking start-all with a credential set and empty mapping text reports the
same missing-mapping message every time while mutating no item. -/
theorem c8_start_all_refusals :
    (∀ (k p : List Char) (mpm : Option (List Char)) (items : List ProcessedImage)
        (flag : Bool),
      (k = [] ∨ jsTrim p = [] ∨ parseCustomMappings p = [] ∨
        items.filter (fun img => retryEligible img.status) = []) →
      (handleStartAllProcessing k p mpm items flag).processedImages = items ∧
      (handleStartAllProcessing k p mpm items flag).startProcessingFlag = flag ∧
      ∃ m, (handleStartAllProcessing k p mpm items flag).startAttemptErrorMessage = some m) ∧
    (∀ mpm,
      apiKeyMissingStartMsg ≠ emptyMappingStartMsg ∧
      apiKeyMissingStartMsg ≠ noEntriesMsg mpm ∧
      apiKeyMissingStartMsg ≠ noImagesUploadedMsg ∧
      apiKeyMissingStartMsg ≠ noImagesEligibleMsg ∧
      emptyMappingStartMsg ≠ noEntriesMsg mpm ∧
      emptyMappingStartMsg ≠ noImagesUploadedMsg ∧
      emptyMappingStartMsg ≠ noImagesEligibleMsg ∧
      noEntriesMsg mpm ≠ noImagesUploadedMsg ∧
      noEntriesMsg mpm ≠ noImagesEligibleMsg ∧
      noImagesUploadedMsg ≠ noImagesEligibleMsg) ∧
    (∀ (k : List Char) (mpm : Option (List Char)) (items : List ProcessedImage)
        (flag : Bool), k ≠ [] →
      (handleStartAllProcessing k [] mpm items flag).startAttemptErrorMessage =
        some emptyMappingStartMsg ∧
      (handleStartAllProcessing k [] mpm items flag).processedImages = items ∧
      (handleStartAllProcessing k [] mpm items flag).startProcessingFlag = flag) := by
  refine ⟨?_, ?_, ?_⟩
  · intro k p mpm items flag hcond
    unfold handleStartAllProcessing
    by_cases hk : k.isEmpty
    · simp [hk]
    · rw [if_neg hk]
      by_cases hp : (jsTrim p).isEmpty
      · simp [hp]
      · rw [if_neg hp]
        by_cases hpar : (parseCustomMappings p).isEmpty
        · simp [hpar]
        · rw [if_neg hpar]
          have hfil : items.filter (fun img => retryEligible img.status) = [] := by
            rcases hcond with h | h | h | h
            · exact absurd (by simp [h]) hk
            · exact absurd (by simp [h]) hp
            · exact absurd (by simp [h]) hpar
            · exact h
          simp [hfil]
  · intro mpm
    refine ⟨by decide, ?_, by decide, by decide, ?_, by decide, by decide, ?_, ?_, by decide⟩
    · exact fun heq => noEntriesMsg_ne (by decide) mpm heq.symm
    · exact fun heq => noEntriesMsg_ne (by decide) mpm heq.symm
    · exact noEntriesMsg_ne (by decide) mpm
    · exact noEntriesMsg_ne (by decide) mpm
  · intro k mpm items flag hk
    have hk2 : k.isEmpty = false := isEmpty_false_of_ne_nil hk
    unfold handleStartAllProcessing
    simp [hk2, jsTrim]

/-- Witness for C8 at a concrete input: with no credential set, nothing
changes and an error is reported. -/
theorem c8_witness :
    (handleStartAllProcessing [] [] none [] false).processedImages = [] ∧
    (handleStartAllProcessing [] [] none [] false).startProcessingFlag = false ∧
    ∃ m, (handleStartAllProcessing [] [] none [] false).startAttemptErrorMessage = some m :=
  c8_start_all_refusals.1 [] [] none [] false (Or.inl rfl)

/-- C9: when all four start-all preconditions hold and item ids are
distinct (as the data model guarantees), exactly the retry-eligible items
are re-queued with status Queued and their ocrText, suggestedName, provider
and errorMessage cleared, every other item is unchanged, the run flag is
raised, and the parsed mappings are installed. -/
theorem c9_start_all_success_requeues_eligible :
    ∀ (k p : List Char) (mpm : Option (List Char)) (items : List ProcessedImage)
      (flag : Bool),
      k ≠ [] → jsTrim p ≠ [] → parseCustomMappings p ≠ [] →
      items.filter (fun img => retryEligible img.status) ≠ [] →
      (items.map (fun it => it.id)).Nodup →
      (handleStartAllProcessing k p mpm items flag).startProcessingFlag = true ∧
      (handleStartAllProcessing k p mpm items flag).processedImages =
        items.map (fun it =>
          if retryEligible it.status then requeueCleared it else it) ∧
      (handleStartAllProcessing k p mpm items flag).startAttemptErrorMessage = none ∧
      (handleStartAllProcessing k p mpm items flag).manualFilenameMappings =
        parseCustomMappings p := by
  intro k p mpm items flag hk hp hpar hfil hnd
  have hk2 : k.isEmpty = false := isEmpty_false_of_ne_nil hk
  have hp2 : (jsTrim p).isEmpty = false := isEmpty_false_of_ne_nil hp
  have hpar2 : (parseCustomMappings p).isEmpty = false := by
    cases hh : parseCustomMappings p with
    | nil => exact absurd hh hpar
    | cons a l => rfl
  have hfil2 : (items.filter (fun img => retryEligible img.status)).isEmpty = false := by
    cases hh : items.filter (fun img => retryEligible img.status) with
    | nil => exact absurd hh hfil
    | cons a l => rfl
  have hmap : items.map (fun img =>
      if (items.filter (fun img2 => retryEligible img2.status)).any
          (fun pr => pr.id == img.id) then requeueCleared img else img) =
      items.map (fun it => if retryEligible it.status then requeueCleared it else it) := by
    apply List.map_congr_left
    intro it hit
    by_cases he : retryEligible it.status
    · have he' : retryEligible it.status = true := he
      have hany : ((items.filter (fun img2 => retryEligible img2.status)).any
          (fun pr => pr.id == it.id)) = true := by
        rw [List.any_eq_true]
        exact ⟨it, List.mem_filter.mpr ⟨hit, he'⟩, by simp⟩
      simp only [hany, he', if_true]
    · have he' : retryEligible it.status = false := by simpa using he
      have hany : ((items.filter (fun img2 => retryEligible img2.status)).any
          (fun pr => pr.id == it.id)) = false := by
        rw [List.any_eq_false]
        intro x hx hxid
        obtain ⟨hxmem, hxel⟩ := List.mem_filter.mp hx
        have hxid' : x.id = it.id := by simpa using hxid
        have hxeq : x = it := List.inj_on_of_nodup_map hnd hxmem hit hxid'
        rw [hxeq, he'] at hxel
        cases hxel
      simp only [hany, he', Bool.false_eq_true, if_false]
  unfold handleStartAllProcessing
  simp only [hk2, hp2, hpar2, hfil2, Bool.false_eq_true, if_false]
  refine ⟨by trivial, ?_, by trivial, by trivial⟩
  exact hmap

/-- Witness for C9 at a concrete input: one errored item is re-queued and
the run flag is raised. -/
theorem c9_witness :
    (handleStartAllProcessing "key".toList
        "name\tims game code\nGameA\tcode1".toList none
        [⟨0, "a.webp".toList, ImageProcessingStatus.error, none, none, none,
          some "boom".toList, none, none, ImageKind.standard⟩] false).startProcessingFlag
      = true ∧
    (handleStartAllProcessing "key".toList
        "name\tims game code\nGameA\tcode1".toList none
        [⟨0, "a.webp".toList, ImageProcessingStatus.error, none, none, none,
          some "boom".toList, none, none, ImageKind.standard⟩] false).processedImages =
      [⟨0, "a.webp".toList, ImageProcessingStatus.queued, none, none, none,
        none, none, none, ImageKind.standard⟩] := by
  have h := c9_start_all_success_requeues_eligible "key".toList
    "name\tims game code\nGameA\tcode1".toList none
    [⟨0, "a.webp".toList, ImageProcessingStatus.error, none, none, none,
      some "boom".toList, none, none, ImageKind.standard⟩] false
    (by decide) (by decide) (by decide) (by decide) (by decide)
  exact ⟨h.1, h.2.1.trans (by decide)⟩

/-- The string-or-default is non-empty when the default is. -/
lemma orDefault_ne_nil {msg dflt : List Char} (h : dflt ≠ []) :
    orDefault msg dflt ≠ [] := by
  unfold orDefault
  split
  · exact h
  · next hm => exact fun hc => hm (by rw [hc]; rfl)

/-- The nullable string-or-default is non-empty when the default is. -/
lemma jsOr_ne_nil {t : Option (List Char)} {dflt : List Char} (h : dflt ≠ []) :
    jsOr t dflt ≠ [] := by
  unfold jsOr
  cases t
  · exact h
  · exact orDefault_ne_nil h

/-- A successful find? returns the element at the first index satisfying
the predicate. -/
lemma find?_first {α : Type} {p : α → Bool} :
    ∀ (l : List α) (a : α), l.find? p = some a →
      ∃ k, ∃ hk : k < l.length, l[k] = a ∧ p a = true ∧
        ∀ j, (hj : j < l.length) → j < k → p l[j] = false := by
  intro l
  induction l with
  | nil => intro a h; cases h
  | cons b l ih =>
    intro a h
    cases hpb : p b
    · rw [List.find?_cons_of_neg _ (by simp [hpb])] at h
      obtain ⟨k, hk, hget, hpa, hpre⟩ := ih a h
      refine ⟨k + 1, by simpa using Nat.succ_lt_succ hk, by simpa using hget, hpa, ?_⟩
      intro j hj hjk
      cases j with
      | zero => simpa using hpb
      | succ j' =>
        have hj' : j' < l.length := by simpa using hj
        simpa using hpre j' hj' (by omega)
    · rw [List.find?_cons_of_pos _ hpb] at h
      have hab : b = a := Option.some.inj h
      refine ⟨0, by simp, by simpa using hab, hab ▸ hpb, ?_⟩
      intro j hj hj0
      omega

/-- Counterexample to C7 as stated: with the run flag set, nothing
mid-processing, archiving idle and no item with status Queued (the list is
empty), the scheduler step leaves the run flag raised instead of clearing
it — the source clears the flag only when the item list is non-empty. -/
theorem c7_counterexample :
    emptyRunState.startProcessingFlag = true ∧
    emptyRunState.currentProcessing = none ∧
    emptyRunState.isZipping = false ∧
    emptyRunState.processedImages.find? (fun img =>
      img.status == ImageProcessingStatus.queued) = none ∧
    (schedulerTick emptyRunState).1.startProcessingFlag = true := by
  refine ⟨rfl, rfl, rfl, rfl, rfl⟩

/-- C7 (amended): a scheduler step taken while the run flag is set, no
item is mid-processing and archiving is idle selects exactly the first item
in list order whose status is Queued, and — when no Queued item remains and
the item list is non-empty — clears the run flag. -/
theorem c7_scheduler_picks_first_queued :
    ∀ s : AppState, s.startProcessingFlag = true → s.currentProcessing = none →
      s.isZipping = false →
      ((schedulerTick s).2 =
        s.processedImages.find? (fun img =>
          img.status == ImageProcessingStatus.queued)) ∧
      (∀ it, s.processedImages.find? (fun img =>
          img.status == ImageProcessingStatus.queued) = some it →
        ∃ k, ∃ hk : k < s.processedImages.length,
          s.processedImages[k] = it ∧ it.status = ImageProcessingStatus.queued ∧
          ∀ j, (hj : j < s.processedImages.length) → j < k →
            s.processedImages[j].status ≠ ImageProcessingStatus.queued) ∧
      ((s.processedImages.find? (fun img =>
          img.status == ImageProcessingStatus.queued) = none ∧
        s.processedImages ≠ []) →
        (schedulerTick s).1.startProcessingFlag = false) := by
  intro s h1 h2 h3
  have hguard : (s.currentProcessing.isSome || !s.startProcessingFlag || s.isZipping)
      = false := by
    rw [h1, h2, h3]
    rfl
  have htick : schedulerTick s =
      (match s.processedImages.find? (fun img =>
          img.status == ImageProcessingStatus.queued) with
       | some it => ({ s with currentProcessing := some it.id }, some it)
       | none =>
         if s.startProcessingFlag && decide (0 < s.processedImages.length)
         then ({ s with startProcessingFlag := false }, none)
         else (s, none)) := by
    unfold schedulerTick
    rw [hguard]
    rfl
  refine ⟨?_, ?_, ?_⟩
  · rw [htick]
    cases hf : s.processedImages.find? (fun img =>
        img.status == ImageProcessingStatus.queued)
    · exact (show (if (s.startProcessingFlag && decide (0 < s.processedImages.length)) = true
          then ({ s with startProcessingFlag := false }, (none : Option ProcessedImage))
          else (s, none)).2 = none by split <;> rfl)
    · rfl
  · intro it hf
    obtain ⟨k, hk, hget, hpa, hpre⟩ := find?_first _ it hf
    refine ⟨k, hk, hget, by simpa using hpa, ?_⟩
    intro j hj hjk
    have := hpre j hj hjk
    simpa using this
  · rintro ⟨hf, hne⟩
    rw [htick, hf]
    have hlen : 0 < s.processedImages.length := List.length_pos.mpr hne
    simp [h1, hlen]

/-- Witness for the amended C7 at a concrete input: the tick skips the
completed item and selects the queued one. -/
theorem c7_witness :
    (schedulerTick twoItemRunState).2 =
      twoItemRunState.processedImages.find? (fun img =>
        img.status == ImageProcessingStatus.queued) ∧
    twoItemRunState.processedImages.find? (fun img =>
        img.status == ImageProcessingStatus.queued) =
      some ⟨1, "todo.webp".toList, ImageProcessingStatus.queued, none, none, none,
        none, some 500, some 333, ImageKind.landscape⟩ :=
  ⟨(c7_scheduler_picks_first_queued twoItemRunState rfl rfl rfl).1, by decide⟩

/-- Membership in an update-by-id image: each element comes from an
original element, updated when its id matches. -/
lemma mem_updateById {items : List ProcessedImage} {i : Nat}
    {upd : ProcessedImage → ProcessedImage} {x : ProcessedImage}
    (h : x ∈ updateById items i upd) :
    ∃ y ∈ items, x = if y.id == i then upd y else y := by
  obtain ⟨y, hy, hxy⟩ := List.mem_map.mp h
  exact ⟨y, hy, hxy.symm⟩

/-- Mapping an id-preserving function leaves the id list unchanged. -/
lemma map_id_pointwise (items : List ProcessedImage)
    (f : ProcessedImage → ProcessedImage)
    (hf : ∀ x ∈ items, (f x).id = x.id) :
    (items.map f).map (fun it => it.id) = items.map (fun it => it.id) := by
  rw [List.map_map]
  exact List.map_congr_left fun x hx => hf x hx

/-- An id-preserving update-by-id leaves the id list unchanged. -/
lemma updateById_map_id (items : List ProcessedImage) (i : Nat)
    (upd : ProcessedImage → ProcessedImage) (hupd : ∀ x, (upd x).id = x.id) :
    (updateById items i upd).map (fun it => it.id) = items.map (fun it => it.id) := by
  unfold updateById
  apply map_id_pointwise
  intro x _
  split
  · exact hupd x
  · rfl

/-- The matching-phase update preserves the item id. -/
lemma matchDoneUpd_id (t : Option (List Char)) (name : List Char)
    (mappings : List FilenameMappingEntry) (x : ProcessedImage) :
    (matchDoneUpd t name mappings x).id = x.id := by
  unfold matchDoneUpd
  cases findMatchingGame t name mappings <;> rfl

/-- The start-all handler either leaves the items unchanged (one of the
four refusals) or re-queues by id-membership in the eligible sublist. -/
lemma startAll_items_cases (k p : List Char) (mpm : Option (List Char))
    (items : List ProcessedImage) (flag : Bool) :
    (handleStartAllProcessing k p mpm items flag).processedImages = items ∨
    (handleStartAllProcessing k p mpm items flag).processedImages =
      items.map (fun img =>
        if (items.filter (fun i2 => retryEligible i2.status)).any
            (fun pr => pr.id == img.id)
        then requeueCleared img else img) := by
  simp only [handleStartAllProcessing]
  split_ifs <;> first | (left; rfl) | (right; rfl)

/-- Bound and distinctness of ids survive an id-preserving
update-by-id. -/
lemma ids_ok_updateById {items : List ProcessedImage} {n : Nat} {i : Nat}
    {upd : ProcessedImage → ProcessedImage}
    (hupd : ∀ x, (upd x).id = x.id)
    (hb : ∀ v ∈ items.map (fun it => it.id), v < n)
    (hn : (items.map (fun it => it.id)).Nodup) :
    (∀ v ∈ (updateById items i upd).map (fun it => it.id), v < n) ∧
    ((updateById items i upd).map (fun it => it.id)).Nodup := by
  rw [updateById_map_id _ _ _ hupd]
  exact ⟨hb, hn⟩

/-- Bound and distinctness of ids survive an id-preserving map. -/
lemma ids_ok_map {items : List ProcessedImage} {n : Nat}
    {f : ProcessedImage → ProcessedImage}
    (hf : ∀ x ∈ items, (f x).id = x.id)
    (hb : ∀ v ∈ items.map (fun it => it.id), v < n)
    (hn : (items.map (fun it => it.id)).Nodup) :
    (∀ v ∈ (items.map f).map (fun it => it.id), v < n) ∧
    ((items.map f).map (fun it => it.id)).Nodup := by
  rw [map_id_pointwise _ _ hf]
  exact ⟨hb, hn⟩

/-- In every reachable state the item ids are bounded by nextId and
pairwise distinct. -/
lemma ids_ok_of_reachable : ∀ s, Reachable s →
    (∀ v ∈ s.processedImages.map (fun it => it.id), v < s.nextId) ∧
    (s.processedImages.map (fun it => it.id)).Nodup := by
  intro s hr
  induction hr with
  | init =>
    constructor
    · intro v hv; cases hv
    · exact List.nodup_nil
  | step hprev hstep ih =>
    obtain ⟨ihb, ihn⟩ := ih
    rename_i s1 t1
    cases hstep with
    | upload nm w ht =>
      dsimp only
      constructor
      · intro v hv
        rw [List.map_append] at hv
        rcases List.mem_append.mp hv with hin | hnew
        · exact Nat.lt_trans (ihb v hin) (Nat.lt_succ_self _)
        · have hv' : v = s1.nextId := by simpa [newUploadedImage] using hnew
          rw [hv']
          exact Nat.lt_succ_self _
      · rw [List.map_append, List.nodup_append]
        refine ⟨ihn, List.nodup_singleton _, ?_⟩
        intro v hvin hvnew
        have hv' : v = s1.nextId := by simpa [newUploadedImage] using hvnew
        exact absurd (ihb v hvin) (by rw [hv']; omega)
    | uploadMetaFail nm =>
      dsimp only
      constructor
      · intro v hv
        rw [List.map_append] at hv
        rcases List.mem_append.mp hv with hin | hnew
        · exact Nat.lt_trans (ihb v hin) (Nat.lt_succ_self _)
        · have hv' : v = s1.nextId := by simpa [newFailedUploadImage] using hnew
          rw [hv']
          exact Nat.lt_succ_self _
      · rw [List.map_append, List.nodup_append]
        refine ⟨ihn, List.nodup_singleton _, ?_⟩
        intro v hvin hvnew
        have hv' : v = s1.nextId := by simpa [newFailedUploadImage] using hvnew
        exact absurd (ihb v hvin) (by rw [hv']; omega)
    | scheduleNoKey it hcp hfl hz hfind hkey =>
      dsimp only
      refine ids_ok_updateById ?_ ihb ihn
      intro x
      rfl
    | scheduleNoMappings it hcp hfl hz hfind hkey hmp =>
      dsimp only
      refine ids_ok_updateById ?_ ihb ihn
      intro x
      rfl
    | scheduleStart it hcp hfl hz hfind hkey hmp =>
      dsimp only
      refine ids_ok_updateById ?_ ihb ihn
      intro x
      rfl
    | ocrOk i t hcp =>
      dsimp only
      refine ids_ok_updateById ?_ ihb ihn
      intro x
      rfl
    | ocrFail i msg hcp =>
      dsimp only
      refine ids_ok_updateById ?_ ihb ihn
      intro x
      rfl
    | matchDone i t nm mp hcp =>
      dsimp only
      refine ids_ok_updateById ?_ ihb ihn
      exact matchDoneUpd_id t nm mp
    | matchCrash i msg hcp =>
      dsimp only
      refine ids_ok_updateById ?_ ihb ihn
      intro x
      rfl
    | schedulerIdle hcp hfl hz hfind hlen =>
      exact ⟨ihb, ihn⟩
    | startAll =>
      dsimp only
      rcases startAll_items_cases s1.apiKey s1.pastedCustomMappings
          s1.mappingParseMessage s1.processedImages s1.startProcessingFlag with
        hsame | hmap
      · rw [hsame]
        exact ⟨ihb, ihn⟩
      · rw [hmap]
        refine ids_ok_map ?_ ihb ihn
        intro x _
        split <;> rfl
    | retry i hguard =>
      dsimp only
      refine ids_ok_updateById ?_ ihb ihn
      intro x
      rfl
    | setPasted t =>
      exact ⟨ihb, ihn⟩
    | setKeyEnter input =>
      exact ⟨ihb, ihn⟩
    | setKeyButton input hinp =>
      dsimp only
      refine ids_ok_map ?_ ihb ihn
      intro x _
      split <;> rfl

/-- In every reachable state, an item in the Extracting or Matching window
is the one recorded as in flight. -/
lemma flight_link_of_reachable : ∀ s, Reachable s →
    ∀ x ∈ s.processedImages, inFlightB x.status = true →
      s.currentProcessing = some x.id := by
  intro s hr
  induction hr with
  | init => intro x hx; cases hx
  | step hprev hstep ih =>
    rename_i s1 t1
    cases hstep with
    | upload nm w ht =>
      intro x hx hfl
      dsimp only at hx ⊢
      rcases List.mem_append.mp hx with hin | hnew
      · exact ih x hin hfl
      · exfalso
        have hx' : x = newUploadedImage s1.apiKey s1.nextId nm w ht := by
          simpa using hnew
        rw [hx'] at hfl
        by_cases hk : s1.apiKey.isEmpty <;>
          simp [newUploadedImage, inFlightB, hk] at hfl
    | uploadMetaFail nm =>
      intro x hx hfl
      dsimp only at hx ⊢
      rcases List.mem_append.mp hx with hin | hnew
      · exact ih x hin hfl
      · exfalso
        have hx' : x = newFailedUploadImage s1.nextId nm := by simpa using hnew
        rw [hx'] at hfl
        simp [newFailedUploadImage, inFlightB] at hfl
    | scheduleNoKey it hcp hfl0 hz hfind hkey =>
      intro x hx hfl
      obtain ⟨y, hy, hxy⟩ := mem_updateById hx
      by_cases hid : (y.id == it.id)
      · rw [hxy, if_pos hid] at hfl
        simp [inFlightB] at hfl
      · rw [hxy, if_neg hid] at hfl ⊢
        exact ih y hy hfl
    | scheduleNoMappings it hcp hfl0 hz hfind hkey hmp =>
      intro x hx hfl
      obtain ⟨y, hy, hxy⟩ := mem_updateById hx
      by_cases hid : (y.id == it.id)
      · rw [hxy, if_pos hid] at hfl
        simp [inFlightB] at hfl
      · rw [hxy, if_neg hid] at hfl ⊢
        exact ih y hy hfl
    | scheduleStart it hcp hfl0 hz hfind hkey hmp =>
      intro x hx hfl
      obtain ⟨y, hy, hxy⟩ := mem_updateById hx
      by_cases hid : (y.id == it.id)
      · have hyid : y.id = it.id := by simpa using hid
        rw [hxy, if_pos hid]
        show some it.id = some y.id
        rw [hyid]
      · rw [hxy, if_neg hid] at hfl
        have hlink := ih y hy hfl
        rw [hcp] at hlink
        cases hlink
    | ocrOk i t hcp =>
      intro x hx hfl
      obtain ⟨y, hy, hxy⟩ := mem_updateById hx
      by_cases hid : (y.id == i)
      · have hyid : y.id = i := by simpa using hid
        rw [hxy, if_pos hid]
        show s1.currentProcessing = some y.id
        rw [hcp, hyid]
      · rw [hxy, if_neg hid] at hfl ⊢
        exact ih y hy hfl
    | ocrFail i msg hcp =>
      intro x hx hfl
      exfalso
      obtain ⟨y, hy, hxy⟩ := mem_updateById hx
      by_cases hid : (y.id == i)
      · rw [hxy, if_pos hid] at hfl
        simp [inFlightB] at hfl
      · rw [hxy, if_neg hid] at hfl
        have hlink := ih y hy hfl
        rw [hcp] at hlink
        exact hid (by simp [(Option.some.inj hlink).symm])
    | matchDone i t nm mp hcp =>
      intro x hx hfl
      exfalso
      obtain ⟨y, hy, hxy⟩ := mem_updateById hx
      by_cases hid : (y.id == i)
      · rw [hxy, if_pos hid] at hfl
        cases hq : findMatchingGame t nm mp <;>
          simp [matchDoneUpd, hq, inFlightB] at hfl
      · rw [hxy, if_neg hid] at hfl
        have hlink := ih y hy hfl
        rw [hcp] at hlink
        exact hid (by simp [(Option.some.inj hlink).symm])
    | matchCrash i msg hcp =>
      intro x hx hfl
      exfalso
      obtain ⟨y, hy, hxy⟩ := mem_updateById hx
      by_cases hid : (y.id == i)
      · rw [hxy, if_pos hid] at hfl
        simp [inFlightB] at hfl
      · rw [hxy, if_neg hid] at hfl
        have hlink := ih y hy hfl
        rw [hcp] at hlink
        exact hid (by simp [(Option.some.inj hlink).symm])
    | schedulerIdle hcp hfl0 hz hfind hlen =>
      intro x hx hfl
      exact ih x hx hfl
    | startAll =>
      intro x hx hfl
      dsimp only at hx ⊢
      rcases startAll_items_cases s1.apiKey s1.pastedCustomMappings
          s1.mappingParseMessage s1.processedImages s1.startProcessingFlag with
        hsame | hmap
      · rw [hsame] at hx
        exact ih x hx hfl
      · rw [hmap] at hx
        obtain ⟨y, hy, hxy⟩ := List.mem_map.mp hx
        rw [← hxy] at hfl ⊢
        by_cases hc : ((s1.processedImages.filter (fun i2 => retryEligible i2.status)).any
            (fun pr => pr.id == y.id))
        · rw [if_pos hc] at hfl
          simp [requeueCleared, inFlightB] at hfl
        · rw [if_neg hc] at hfl ⊢
          exact ih y hy hfl
    | retry i hguard =>
      intro x hx hfl
      obtain ⟨y, hy, hxy⟩ := mem_updateById hx
      by_cases hid : (y.id == i)
      · rw [hxy, if_pos hid] at hfl
        simp [requeueCleared, inFlightB] at hfl
      · rw [hxy, if_neg hid] at hfl ⊢
        exact ih y hy hfl
    | setPasted t =>
      intro x hx hfl
      exact ih x hx hfl
    | setKeyEnter input =>
      intro x hx hfl
      exact ih x hx hfl
    | setKeyButton input hinp =>
      intro x hx hfl
      dsimp only at hx ⊢
      obtain ⟨y, hy, hxy⟩ := List.mem_map.mp hx
      rw [← hxy] at hfl ⊢
      by_cases hst : (y.status == ImageProcessingStatus.api_key_missing)
      · rw [if_pos hst] at hfl
        simp [inFlightB] at hfl
      · rw [if_neg hst] at hfl ⊢
        exact ih y hy hfl

/-- A freshly uploaded item satisfies the field invariant. -/
lemma itemFieldsOk_newUploadedImage (k : List Char) (i : Nat) (nm : List Char)
    (w ht : Nat) : itemFieldsOk (newUploadedImage k i nm w ht) := by
  unfold itemFieldsOk newUploadedImage
  by_cases hk : k.isEmpty
  · exact ⟨fun hc => by simp [hk] at hc,
           fun _ => ⟨apiKeyMissingShortMsg, by simp [hk], by decide⟩⟩
  · refine ⟨fun hc => by simp [hk] at hc, fun hc => ?_⟩
    rcases hc with hc | hc | hc <;> simp [hk] at hc

/-- A failed-metadata upload satisfies the field invariant. -/
lemma itemFieldsOk_newFailedUploadImage (i : Nat) (nm : List Char) :
    itemFieldsOk (newFailedUploadImage i nm) :=
  ⟨fun hc => ImageProcessingStatus.noConfusion hc,
   fun _ => ⟨metaReadFailMsg, rfl, by decide⟩⟩

/-- A re-queued item satisfies the field invariant. -/
lemma itemFieldsOk_requeueCleared (y : ProcessedImage) :
    itemFieldsOk (requeueCleared y) :=
  ⟨fun hc => ImageProcessingStatus.noConfusion hc,
   fun hc => by rcases hc with hc | hc | hc <;> exact ImageProcessingStatus.noConfusion hc⟩

/-- In every reachable state every item satisfies the field
invariant. -/
lemma fieldsOk_of_reachable : ∀ s, Reachable s →
    ∀ x ∈ s.processedImages, itemFieldsOk x := by
  intro s hr
  induction hr with
  | init => intro x hx; cases hx
  | step hprev hstep ih =>
    rename_i s1 t1
    cases hstep with
    | upload nm w ht =>
      intro x hx
      dsimp only at hx
      rcases List.mem_append.mp hx with hin | hnew
      · exact ih x hin
      · have hx' : x = newUploadedImage s1.apiKey s1.nextId nm w ht := by
          simpa using hnew
        rw [hx']
        exact itemFieldsOk_newUploadedImage _ _ _ _ _
    | uploadMetaFail nm =>
      intro x hx
      dsimp only at hx
      rcases List.mem_append.mp hx with hin | hnew
      · exact ih x hin
      · have hx' : x = newFailedUploadImage s1.nextId nm := by simpa using hnew
        rw [hx']
        exact itemFieldsOk_newFailedUploadImage _ _
    | scheduleNoKey it hcp hfl0 hz hfind hkey =>
      intro x hx
      obtain ⟨y, hy, hxy⟩ := mem_updateById hx
      rw [hxy]
      split
      · exact ⟨fun hc => ImageProcessingStatus.noConfusion hc,
               fun _ => ⟨apiKeySkippedMsg, rfl, by decide⟩⟩
      · exact ih y hy
    | scheduleNoMappings it hcp hfl0 hz hfind hkey hmp =>
      intro x hx
      obtain ⟨y, hy, hxy⟩ := mem_updateById hx
      rw [hxy]
      split
      · exact ⟨fun hc => ImageProcessingStatus.noConfusion hc,
               fun _ => ⟨noMappingsLoadedMsg, rfl, by decide⟩⟩
      · exact ih y hy
    | scheduleStart it hcp hfl0 hz hfind hkey hmp =>
      intro x hx
      obtain ⟨y, hy, hxy⟩ := mem_updateById hx
      rw [hxy]
      split
      · refine ⟨fun hc => ImageProcessingStatus.noConfusion hc, fun hc => ?_⟩
        rcases hc with hc | hc | hc <;> exact ImageProcessingStatus.noConfusion hc
      · exact ih y hy
    | ocrOk i t hcp =>
      intro x hx
      obtain ⟨y, hy, hxy⟩ := mem_updateById hx
      rw [hxy]
      split
      · refine ⟨fun hc => ImageProcessingStatus.noConfusion hc, fun hc => ?_⟩
        rcases hc with hc | hc | hc <;> exact ImageProcessingStatus.noConfusion hc
      · exact ih y hy
    | ocrFail i msg hcp =>
      intro x hx
      obtain ⟨y, hy, hxy⟩ := mem_updateById hx
      rw [hxy]
      split
      · exact ⟨fun hc => ImageProcessingStatus.noConfusion hc,
               fun _ => ⟨orDefault msg ocrFailDefaultMsg, rfl,
                 orDefault_ne_nil (by decide)⟩⟩
      · exact ih y hy
    | matchDone i t nm mp hcp =>
      intro x hx
      obtain ⟨y, hy, hxy⟩ := mem_updateById hx
      rw [hxy]
      split
      · unfold matchDoneUpd
        cases hq : findMatchingGame t nm mp with
        | some e =>
          refine ⟨fun _ => ⟨_, rfl, ?_⟩, fun hc => ?_⟩
          · intro hcon
            exact absurd (List.append_eq_nil.mp hcon).2 (by decide)
          · rcases hc with hc | hc | hc <;> exact ImageProcessingStatus.noConfusion hc
        | none =>
          exact ⟨fun hc => ImageProcessingStatus.noConfusion hc,
                 fun _ => ⟨gameNotFoundMsg, rfl, by decide⟩⟩
      · exact ih y hy
    | matchCrash i msg hcp =>
      intro x hx
      obtain ⟨y, hy, hxy⟩ := mem_updateById hx
      rw [hxy]
      split
      · exact ⟨fun hc => ImageProcessingStatus.noConfusion hc,
               fun _ => ⟨orDefault msg matchCrashDefaultMsg, rfl,
                 orDefault_ne_nil (by decide)⟩⟩
      · exact ih y hy
    | schedulerIdle hcp hfl0 hz hfind hlen =>
      intro x hx
      exact ih x hx
    | startAll =>
      intro x hx
      dsimp only at hx
      rcases startAll_items_cases s1.apiKey s1.pastedCustomMappings
          s1.mappingParseMessage s1.processedImages s1.startProcessingFlag with
        hsame | hmap
      · rw [hsame] at hx
        exact ih x hx
      · rw [hmap] at hx
        obtain ⟨y, hy, hxy⟩ := List.mem_map.mp hx
        rw [← hxy]
        split
        · exact itemFieldsOk_requeueCleared y
        · exact ih y hy
    | retry i hguard =>
      intro x hx
      obtain ⟨y, hy, hxy⟩ := mem_updateById hx
      rw [hxy]
      split
      · exact itemFieldsOk_requeueCleared y
      · exact ih y hy
    | setPasted t =>
      intro x hx
      exact ih x hx
    | setKeyEnter input =>
      intro x hx
      exact ih x hx
    | setKeyButton input hinp =>
      intro x hx
      dsimp only at hx
      obtain ⟨y, hy, hxy⟩ := List.mem_map.mp hx
      rw [← hxy]
      split
      · refine ⟨fun hc => ImageProcessingStatus.noConfusion hc, fun hc => ?_⟩
        rcases hc with hc | hc | hc <;> exact ImageProcessingStatus.noConfusion hc
      · exact ih y hy

/-- C5: in every state reachable through upload, per-item processing,
retry, start-all and set-key operations, an item with status Completed has
a non-empty suggestedName, and an item with status Error, ApiKeyMissing or
MappingError has a non-empty errorMessage. -/
theorem c5_terminal_state_fields :
    ∀ s, Reachable s → ∀ x ∈ s.processedImages,
      (x.status = ImageProcessingStatus.completed →
        ∃ n, x.suggestedName = some n ∧ n ≠ []) ∧
      ((x.status = ImageProcessingStatus.error ∨
        x.status = ImageProcessingStatus.api_key_missing ∨
        x.status = ImageProcessingStatus.mapping_parse_error) →
        ∃ m, x.errorMessage = some m ∧ m ≠ []) :=
  fieldsOk_of_reachable

/-- Witness for C5 at a concrete reachable state: one upload with no API
key set yields an ApiKeyMissing item whose error message is present. -/
theorem c5_witness :
    (newUploadedImage initState.apiKey initState.nextId "a.webp".toList 500 693).errorMessage
      ≠ none := by
  have hr : Reachable { initState with
      processedImages := initState.processedImages ++
        [newUploadedImage initState.apiKey initState.nextId "a.webp".toList 500 693],
      nextId := initState.nextId + 1 } :=
    Reachable.step Reachable.init (Step.upload initState "a.webp".toList 500 693)
  have h := (c5_terminal_state_fields _ hr
    (newUploadedImage initState.apiKey initState.nextId "a.webp".toList 500 693)
    (by simp)).2 (Or.inr (Or.inl rfl))
  obtain ⟨m, hm, _⟩ := h
  rw [hm]
  intro hc
  cases hc

/-- A predicate that forces a single key value holds for at most one
element of a list with distinct ids. -/
lemma countP_le_one_of_key (c : Nat) {l : List ProcessedImage} {p : ProcessedImage → Bool}
    (hnd : (l.map (fun it => it.id)).Nodup)
    (hkey : ∀ x ∈ l, p x = true → x.id = c) :
    l.countP p ≤ 1 := by
  induction l with
  | nil => simp
  | cons a l ih =>
    rw [List.countP_cons]
    simp only [List.map_cons, List.nodup_cons] at hnd
    obtain ⟨hna, hnl⟩ := hnd
    by_cases hpa : p a = true
    · have hca : a.id = c := hkey a (List.mem_cons_self a l) hpa
      have hz : l.countP p = 0 := by
        rw [List.countP_eq_zero]
        intro x hx hpx
        have hcx : x.id = c := hkey x (List.mem_cons_of_mem _ hx) hpx
        exact hna (by rw [hca, ← hcx]; exact List.mem_map.mpr ⟨x, hx, rfl⟩)
      rw [hz]
      simp [hpa]
    · have hle : l.countP p ≤ 1 :=
        ih hnl (fun x hx hpx => hkey x (List.mem_cons_of_mem _ hx) hpx)
      have hpa' : p a = false := by simpa using hpa
      rw [hpa']
      simpa using hle

/-- C6: in every reachable state at most one item has status Extracting or
Matching; and while one item is mid-processing, any item in these statuses
after a further step is that same item — no other item enters the window
until the in-flight item reaches a terminal status. -/
theorem c6_single_flight :
    (∀ s, Reachable s →
      s.processedImages.countP (fun x => inFlightB x.status) ≤ 1) ∧
    (∀ s t i, Reachable s → Step s t → s.currentProcessing = some i →
      ∀ x ∈ t.processedImages, inFlightB x.status = true → x.id = i) := by
  constructor
  · intro s hr
    obtain ⟨_, hnd⟩ := ids_ok_of_reachable s hr
    have hlink := flight_link_of_reachable s hr
    cases hcp : s.currentProcessing with
    | none =>
      have hz : s.processedImages.countP (fun x => inFlightB x.status) = 0 := by
        rw [List.countP_eq_zero]
        intro x hx hpx
        have := hlink x hx hpx
        rw [hcp] at this
        cases this
      omega
    | some i =>
      refine countP_le_one_of_key i hnd ?_
      intro x hx hpx
      have := hlink x hx hpx
      rw [hcp] at this
      exact (Option.some.inj this).symm
  · intro s t i hr hstep hcpi
    have hlink := flight_link_of_reachable s hr
    have hnext := flight_link_of_reachable t (Reachable.step hr hstep)
    cases hstep with
    | scheduleStart it hcp hfl0 hz hfind hkey hmp =>
      rw [hcp] at hcpi
      cases hcpi
    | scheduleNoKey it hcp hfl0 hz hfind hkey =>
      rw [hcp] at hcpi
      cases hcpi
    | scheduleNoMappings it hcp hfl0 hz hfind hkey hmp =>
      rw [hcp] at hcpi
      cases hcpi
    | schedulerIdle hcp hfl0 hz hfind hlen =>
      rw [hcp] at hcpi
      cases hcpi
    | ocrOk i0 t0 hcp =>
      intro x hx hfl
      have hl := hnext x hx hfl
      rw [hcpi] at hl
      exact (Option.some.inj hl).symm
    | ocrFail i0 msg hcp =>
      intro x hx hfl
      exfalso
      have hl := hnext x hx hfl
      cases hl
    | matchDone i0 t0 nm mp hcp =>
      intro x hx hfl
      exfalso
      have hl := hnext x hx hfl
      cases hl
    | matchCrash i0 msg hcp =>
      intro x hx hfl
      exfalso
      have hl := hnext x hx hfl
      cases hl
    | upload nm w ht =>
      intro x hx hfl
      have hl := hnext x hx hfl
      rw [hcpi] at hl
      exact (Option.some.inj hl).symm
    | uploadMetaFail nm =>
      intro x hx hfl
      have hl := hnext x hx hfl
      rw [hcpi] at hl
      exact (Option.some.inj hl).symm
    | startAll =>
      intro x hx hfl
      have hl := hnext x hx hfl
      rw [hcpi] at hl
      exact (Option.some.inj hl).symm
    | retry i0 hguard =>
      intro x hx hfl
      have hl := hnext x hx hfl
      rw [hcpi] at hl
      exact (Option.some.inj hl).symm
    | setPasted t0 =>
      intro x hx hfl
      have hl := hnext x hx hfl
      rw [hcpi] at hl
      exact (Option.some.inj hl).symm
    | setKeyEnter input =>
      intro x hx hfl
      have hl := hnext x hx hfl
      rw [hcpi] at hl
      exact (Option.some.inj hl).symm
    | setKeyButton input hinp =>
      intro x hx hfl
      have hl := hnext x hx hfl
      rw [hcpi] at hl
      exact (Option.some.inj hl).symm

/-- Witness for C6 at a concrete reachable state: after one upload, the
count of items in the Extracting or Matching window is at most one. -/
theorem c6_witness :
    ({ initState with
        processedImages := initState.processedImages ++
          [newUploadedImage initState.apiKey initState.nextId "a.webp".toList 500 693],
        nextId := initState.nextId + 1 } : AppState).processedImages.countP
      (fun x => inFlightB x.status) ≤ 1 :=
  c6_single_flight.1 _
    (Reachable.step Reachable.init (Step.upload initState "a.webp".toList 500 693))

example : normalizeText "King\x27s Mystery!".toList = "kingsmystery".toList := by decide
example : filenameStem "540x540-game.webp".toList = "540x540-game".toList := by decide
example : filenameGamePart "540x540-game.webp".toList = "game".toList := by decide
example : filenameGamePart "plainname".toList = "plainname".toList := by decide
example : filenameGamePart "123x45-core".toList = "core".toList := by decide
example : strIncludes "gamedeluxe".toList "game".toList = true := by decide
example : strIncludes "game".toList "gamedeluxe".toList = false := by decide
example : sanitizeFilename "My Game: Deluxe.webp".toList "fb".toList 50 =
    "My_Game__Deluxe".toList := by decide
example : sanitizeFilename "___".toList "fb".toList 50 = "fb".toList := by decide
example :
    findMatchingGame (some "Game Deluxe".toList) "x.webp".toList
      [⟨"Game".toList, "c1".toList, none⟩, ⟨"GameV2".toList, "c2".toList, none⟩] =
    some ⟨"Game".toList, "c1".toList, none⟩ := by decide
